import Mathlib

/-!
Verification of the RAG-index HTTP handlers (`internal/httpserver/handlers/rag_indices.go`)
and the MinIO client wrapper (`internal/minio/client.go`) of the kagent controller.

The Go code is shallowly embedded: the MinIO object store and the document-status
table become explicit state values, every external call that can fail at the
storage layer takes an explicit fault flag (`true` = the underlying call reports
an error), and each HTTP handler becomes a pure function from the request
parameters and the current state to a result plus the new state.  Byte strings
that are fed to `json.Unmarshal` are represented by their parse outcome
(`ObjectData.metadataJson` for bytes that parse as index metadata,
`ObjectData.blob` for all other bytes).  Wall-clock times are `Nat` parameters,
UUIDs are `String` parameters.
-/

namespace KagentRag

/-- `RAGIndex` from rag_indices.go: the JSON value stored in the reserved
`.metadata.json` object of each index bucket. `CreatedAt` is a `time.Time`,
embedded as a `Nat`. -/
structure RAGIndex where
  name : String
  description : String
  createdAt : Nat
  deriving Repr, DecidableEq

/-- `RAGDocument` from rag_indices.go: one entry of a document listing.
The `Status` field carries `json:"status,omitempty"`; the Go zero value `""`
stands for an absent status. -/
structure RAGDocument where
  name : String
  size : Int
  lastModified : Nat
  status : String
  deriving Repr, DecidableEq

/-- The reserved metadata object key, `const metadataFile = ".metadata.json"`. -/
def metadataFile : String := ".metadata.json"

/-- The contents of an object stored in a bucket, quotiented by the only
observation the handlers make of raw bytes: whether `json.Unmarshal` into
`RAGIndex` succeeds, and with which value.  Uploaded documents are kept as raw
byte lists. -/
inductive ObjectData where
  | metadataJson (idx : RAGIndex) : ObjectData
  | blob (content : List Nat) : ObjectData
  deriving Repr, DecidableEq

/-- `json.Unmarshal(data, &index)` applied to an object's bytes. -/
def parseMetadata : ObjectData → Option RAGIndex
  | .metadataJson idx => some idx
  | .blob _ => none

/-- One stored object of a bucket, per `minio.ObjectInfo` (client.go) plus its
contents. -/
structure StoredObject where
  key : String
  size : Int
  contentType : String
  lastModified : Nat
  data : ObjectData
  deriving Repr, DecidableEq

/-- One MinIO bucket: its name, the set of armed event-hook suffix tokens
(§ bucket event arming), and its objects. -/
structure Bucket where
  name : String
  eventHooks : List String
  objects : List StoredObject
  deriving Repr, DecidableEq

/-- The MinIO server state: the list of buckets.  MinIO bucket names are
unique; states reachable from the empty store keep the list duplicate-free. -/
structure MinioState where
  buckets : List Bucket
  deriving Repr, DecidableEq

/-- `database.DocumentStatus`: one row of the per-document processing-status
table, keyed by (index, filename). -/
structure DocumentStatus where
  id : String
  indexName : String
  filename : String
  status : String
  errorMsg : String
  deriving Repr, DecidableEq

/-- The whole world the handlers act on: object store plus status table. -/
structure World where
  minio : MinioState
  db : List DocumentStatus
  deriving Repr, DecidableEq

/-- The error taxonomy of `internal/httpserver/errors`, with the message each
constructor carries. -/
inductive ApiError where
  | badRequest (msg : String) : ApiError
  | notFound (msg : String) : ApiError
  | conflict (msg : String) : ApiError
  | internalServerError (msg : String) : ApiError
  deriving Repr, DecidableEq

/-- Outcome of one handler invocation: an HTTP success status with a JSON body,
or an error response. -/
inductive HResult (α : Type) where
  | ok (status : Nat) (body : α) : HResult α
  | fail (e : ApiError) : HResult α
  deriving Repr, DecidableEq

/-- True exactly on `.fail (.badRequest _)`. -/
def HResult.isBadRequest : HResult α → Bool
  | .fail (.badRequest _) => true
  | _ => false

/-- `isAlphanumeric` from rag_indices.go: lowercase ASCII letter or ASCII
digit. -/
def isAlphanumeric (c : Char) : Bool :=
  (('a' ≤ c) && (c ≤ 'z')) || (('0' ≤ c) && (c ≤ '9'))

/-- `isValidIndexName` from rag_indices.go, on the character sequence of the
name.  Go measures and indexes bytes while this embedding works on characters;
the two agree on every name: a name whose characters all pass the per-character
loop is plain ASCII, where bytes and characters coincide, and any other name is
rejected by both (a multi-byte character neither starts with an alphanumeric
byte nor is an alphanumeric character).  `strings.ToLower` is embedded as
character-wise `Char.toLower`, which agrees with Go's Unicode lowercasing on
every character the preceding loop lets through. -/
def isValidIndexName (name : String) : Bool :=
  if name.toList.length == 0 || decide (name.toList.length > 63) then false
  else if !(match name.toList.head? with | some c => isAlphanumeric c | none => false)
       || !(match name.toList.getLast? with | some c => isAlphanumeric c | none => false) then
    false
  else if !(name.toList.all fun c => isAlphanumeric c || c == '-') then false
  else name.toList == name.toList.map Char.toLower

/-- The naming rule exactly as the specification words it: 1–63 characters,
all lowercase alphanumerics or hyphens, first and last character
alphanumeric. -/
def specValidIndexName (name : String) : Bool :=
  decide (1 ≤ name.toList.length) && decide (name.toList.length ≤ 63)
  && (name.toList.all fun c => (('a' ≤ c) && (c ≤ 'z')) || (('0' ≤ c) && (c ≤ '9')) || c == '-')
  && (match name.toList.head? with
      | some c => (('a' ≤ c) && (c ≤ 'z')) || (('0' ≤ c) && (c ≤ '9'))
      | none => false)
  && (match name.toList.getLast? with
      | some c => (('a' ≤ c) && (c ≤ 'z')) || (('0' ≤ c) && (c ≤ '9'))
      | none => false)

/-- Bucket lookup by name. -/
def findBucket (s : MinioState) (bucketName : String) : Option Bucket :=
  s.buckets.find? fun b => b.name == bucketName

/-- Whether a bucket of that name exists (the answer MinIO gives a fault-free
`BucketExists` call). -/
def hasBucket (s : MinioState) (bucketName : String) : Bool :=
  s.buckets.any fun b => b.name == bucketName

/-- `Client.BucketExists` (client.go): the underlying call either reports a
network fault or answers existence. -/
def minioBucketExists (s : MinioState) (fault : Bool) (bucketName : String) :
    Except Unit Bool :=
  if fault then .error () else .ok (hasBucket s bucketName)

/-- `Client.CreateBucket` (client.go): checks existence first and silently
succeeds when the bucket is already there, otherwise makes the bucket.  The
fault flag covers an error from either underlying call. -/
def minioCreateBucket (s : MinioState) (fault : Bool) (bucketName : String) :
    Except Unit MinioState :=
  if fault then .error ()
  else if hasBucket s bucketName then .ok s
  else .ok ⟨s.buckets ++ [⟨bucketName, [], []⟩]⟩

/-- `Client.DeleteBucket` (client.go): removes every object, then the bucket;
an absent bucket makes the underlying removal fail.  The fault flag covers an
error from listing, any per-object removal, or the bucket removal. -/
def minioDeleteBucket (s : MinioState) (fault : Bool) (bucketName : String) :
    Except Unit MinioState :=
  if fault then .error ()
  else if hasBucket s bucketName then
    .ok ⟨s.buckets.filter fun b => !(b.name == bucketName)⟩
  else .error ()

/-- Modelled from the spec: `Client.SetBucketNotification` is called by the
create handler but its body is not among the sources at hand.  Per §4.2 it
arms a bucket-level event hook identified by a fixed suffix token and is
idempotent to re-arm; like every bucket-scoped call it fails on a missing
bucket or a storage fault. -/
def minioSetBucketNotification (s : MinioState) (fault : Bool)
    (bucketName token : String) : Except Unit MinioState :=
  if fault then .error ()
  else match findBucket s bucketName with
    | none => .error ()
    | some _ =>
      .ok ⟨s.buckets.map fun b =>
        if b.name == bucketName then
          { b with eventHooks :=
              if b.eventHooks.contains token then b.eventHooks
              else b.eventHooks ++ [token] }
        else b⟩

/-- The shared core of `Client.UploadFile` and `Client.PutObjectBytes`
(client.go), both of which call the MinIO `PutObject`: overwrite or create the
object of that key.  A missing bucket makes the underlying call fail. -/
def minioPutObject (s : MinioState) (fault : Bool) (bucketName objectName : String)
    (data : ObjectData) (size : Int) (contentType : String) (now : Nat) :
    Except Unit MinioState :=
  if fault then .error ()
  else match findBucket s bucketName with
    | none => .error ()
    | some _ =>
      .ok ⟨s.buckets.map fun b =>
        if b.name == bucketName then
          { b with objects := (b.objects.filter fun o => !(o.key == objectName))
              ++ [⟨objectName, size, contentType, now, data⟩] }
        else b⟩

/-- `Client.DeleteFile` (client.go), i.e. MinIO `RemoveObject`: removing an
object that does not exist succeeds; a missing bucket fails. -/
def minioDeleteFile (s : MinioState) (fault : Bool) (bucketName objectName : String) :
    Except Unit MinioState :=
  if fault then .error ()
  else match findBucket s bucketName with
    | none => .error ()
    | some _ =>
      .ok ⟨s.buckets.map fun b =>
        if b.name == bucketName then
          { b with objects := b.objects.filter fun o => !(o.key == objectName) }
        else b⟩

/-- `Client.ListBuckets` (client.go): the bucket names. -/
def minioListBuckets (s : MinioState) (fault : Bool) : Except Unit (List String) :=
  if fault then .error () else .ok (s.buckets.map fun b => b.name)

/-- `Client.GetObject` (client.go): the object's bytes; a missing bucket or
key fails. -/
def minioGetObject (s : MinioState) (fault : Bool) (bucketName objectName : String) :
    Except Unit ObjectData :=
  if fault then .error ()
  else match findBucket s bucketName with
    | none => .error ()
    | some b =>
      match b.objects.find? fun o => o.key == objectName with
      | none => .error ()
      | some o => .ok o.data

/-- `Client.ListObjectsInfo` (client.go) with the empty prefix the handlers
pass: every object of the bucket with its info. -/
def minioListObjectsInfo (s : MinioState) (fault : Bool) (bucketName : String) :
    Except Unit (List StoredObject) :=
  if fault then .error ()
  else match findBucket s bucketName with
    | none => .error ()
    | some b => .ok b.objects

/-- Modelled from the spec: `database.Client.StoreDocumentStatus` is called by
the upload handler but the `database` package is not among the sources at
hand.  Per §3 the status table is a relational table keyed by (index,
filename); storing writes the row under that key. -/
def dbStoreDocumentStatus (db : List DocumentStatus) (fault : Bool)
    (row : DocumentStatus) : Except Unit (List DocumentStatus) :=
  if fault then .error ()
  else .ok ((db.filter fun r =>
      !(r.indexName == row.indexName && r.filename == row.filename)) ++ [row])

/-- Modelled from the spec: `database.Client.UpdateDocumentStatus` — per §4.1
it "upserts the status row" keyed by (index, filename).  The row identifier is
never observed by a handler response; an existing row keeps its identifier and
a fresh row gets the empty one. -/
def dbUpdateDocumentStatus (db : List DocumentStatus) (fault : Bool)
    (indexName filename status errorMsg : String) :
    Except Unit (List DocumentStatus) :=
  if fault then .error ()
  else
    let oldId := ((db.find? fun r =>
      r.indexName == indexName && r.filename == filename).map fun r => r.id).getD ""
    .ok ((db.filter fun r => !(r.indexName == indexName && r.filename == filename))
      ++ [⟨oldId, indexName, filename, status, errorMsg⟩])

/-- Modelled from the spec: `database.Client.DeleteDocumentStatus` — removes
the row of that (index, filename), if any. -/
def dbDeleteDocumentStatus (db : List DocumentStatus) (fault : Bool)
    (indexName filename : String) : Except Unit (List DocumentStatus) :=
  if fault then .error ()
  else .ok (db.filter fun r => !(r.indexName == indexName && r.filename == filename))

/-- Modelled from the spec: `database.Client.DeleteDocumentStatusesForIndex` —
removes every row of that index. -/
def dbDeleteDocumentStatusesForIndex (db : List DocumentStatus) (fault : Bool)
    (indexName : String) : Except Unit (List DocumentStatus) :=
  if fault then .error ()
  else .ok (db.filter fun r => !(r.indexName == indexName))

/-- Modelled from the spec: `database.Client.ListDocumentStatusesForIndex` —
the rows of that index. -/
def dbListDocumentStatusesForIndex (db : List DocumentStatus) (fault : Bool)
    (indexName : String) : Except Unit (List DocumentStatus) :=
  if fault then .error ()
  else .ok (db.filter fun r => r.indexName == indexName)

/-- `getIndexMetadata` (rag_indices.go): fetch the reserved object and
`json.Unmarshal` it; either step failing fails the call. -/
def getIndexMetadata (s : MinioState) (fault : Bool) (bucketName : String) :
    Except Unit RAGIndex :=
  match minioGetObject s fault bucketName metadataFile with
  | .error _ => .error ()
  | .ok data =>
    match parseMetadata data with
    | none => .error ()
    | some idx => .ok idx

/-- `putIndexMetadata` (rag_indices.go): `json.Marshal` the metadata (which
cannot fail for this struct) and write it with content type
`application/json`.  No handler ever observes the metadata object's size, so
it is recorded as 0. -/
def putIndexMetadata (s : MinioState) (fault : Bool) (bucketName : String)
    (index : RAGIndex) (now : Nat) : Except Unit MinioState :=
  minioPutObject s fault bucketName metadataFile (.metadataJson index) 0
    "application/json" now

/-- `filepath.Ext` of the Go standard library, on the reversed character list:
scan backwards, stop at a path separator, return the suffix from the last
dot.  Separator and dot are one-byte characters, so the byte scan of the Go
original finds the same boundary. -/
def goExtAux (acc : List Char) : List Char → List Char
  | [] => []
  | c :: rest =>
    if c == '/' then []
    else if c == '.' then c :: acc
    else goExtAux (c :: acc) rest

/-- `filepath.Ext path`. -/
def filepathExt (path : String) : String := String.mk (goExtAux [] path.toList.reverse)

/-- The `supportedExtensions` map of rag_indices.go, as its membership test
(a key missing from the Go map reads as `false`). -/
def supportedExtensions (ext : String) : Bool :=
  ext == ".txt" || ext == ".md" || ext == ".json" || ext == ".csv"
  || ext == ".docx" || ext == ".pdf"

/-- The ASCII single-quote character, written by code point. -/
def sq : String := String.mk [Char.ofNat 39]

/-- The conflict message of the create handler, quoting the requested name. -/
def conflictMsg (name : String) : String :=
  "RAG index " ++ sq ++ name ++ sq ++ " already exists"

/-- The bad-extension message of the upload handler, quoting the offending
extension. -/
def unsupportedTypeMsg (ext : String) : String :=
  "Unsupported file type " ++ sq ++ ext ++ sq
  ++ ". Supported types: .txt, .md, .json, .csv, .docx, .pdf"

/-- `CreateRAGIndexRequest`: the decoded JSON body of POST /api/indices. -/
structure CreateRAGIndexRequest where
  name : String
  description : String
  deriving Repr, DecidableEq

/-- One fault flag per storage call site of `HandleCreateRAGIndex`;
`rollbackDelete` guards the compensating `DeleteBucket` calls. -/
structure CreateFaults where
  existsCheck : Bool
  createBucket : Bool
  setNotification : Bool
  putMetadata : Bool
  rollbackDelete : Bool
  deriving Repr, DecidableEq

/-- The discarded-error compensating deletion
`_ = h.MinioClient.DeleteBucket(r.Context(), req.Name)`. -/
def rollbackDeleteBucket (s : MinioState) (fault : Bool) (bucketName : String) :
    MinioState :=
  match minioDeleteBucket s fault bucketName with
  | .error _ => s
  | .ok s2 => s2

/-- `HandleCreateRAGIndex` (rag_indices.go), after a successful JSON body
decode: validate the name, reject an existing bucket as a conflict, then
create the bucket, arm the notification hook, and write the metadata object,
rolling the bucket back on a failure of either of the last two steps. -/
def handleCreateRAGIndex (f : CreateFaults) (s : MinioState)
    (req : CreateRAGIndexRequest) (now : Nat) : HResult RAGIndex × MinioState :=
  if req.name == "" then (.fail (.badRequest "Index name is required"), s)
  else if !isValidIndexName req.name then
    (.fail (.badRequest "Index name must be lowercase alphanumeric with hyphens only"), s)
  else
    match minioBucketExists s f.existsCheck req.name with
    | .error _ => (.fail (.internalServerError "Failed to check index"), s)
    | .ok true => (.fail (.conflict (conflictMsg req.name)), s)
    | .ok false =>
      match minioCreateBucket s f.createBucket req.name with
      | .error _ => (.fail (.internalServerError "Failed to create index"), s)
      | .ok s1 =>
        match minioSetBucketNotification s1 f.setNotification req.name "KAGENT" with
        | .error _ =>
          (.fail (.internalServerError "Failed to configure index notifications"),
           rollbackDeleteBucket s1 f.rollbackDelete req.name)
        | .ok s2 =>
          let index : RAGIndex := ⟨req.name, req.description, now⟩
          match putIndexMetadata s2 f.putMetadata req.name index now with
          | .error _ =>
            (.fail (.internalServerError "Failed to create index metadata"),
             rollbackDeleteBucket s2 f.rollbackDelete req.name)
          | .ok s3 => (.ok 201 index, s3)

/-- One fault flag per storage call site of `HandleDeleteRAGIndex`. -/
structure DeleteIndexFaults where
  existsCheck : Bool
  deleteBucket : Bool
  deleteStatuses : Bool
  deriving Repr, DecidableEq

/-- `HandleDeleteRAGIndex` (rag_indices.go): existence check, bucket deletion,
then best-effort deletion of the document-status rows of the index. -/
def handleDeleteRAGIndex (f : DeleteIndexFaults) (w : World) (indexName : String) :
    HResult Unit × World :=
  match minioBucketExists w.minio f.existsCheck indexName with
  | .error _ => (.fail (.internalServerError "Failed to check index"), w)
  | .ok false => (.fail (.notFound "RAG index not found"), w)
  | .ok true =>
    match minioDeleteBucket w.minio f.deleteBucket indexName with
    | .error _ => (.fail (.internalServerError "Failed to delete index"), w)
    | .ok m2 =>
      match dbDeleteDocumentStatusesForIndex w.db f.deleteStatuses indexName with
      | .error _ => (.ok 200 (), ⟨m2, w.db⟩)
      | .ok db2 => (.ok 200 (), ⟨m2, db2⟩)

/-- `UpdateRAGIndexRequest`: the decoded JSON body of PUT /api/indices/{name}. -/
structure UpdateRAGIndexRequest where
  description : String
  deriving Repr, DecidableEq

/-- One fault flag per storage call site of `HandleUpdateRAGIndex`. -/
structure UpdateIndexFaults where
  getMetadata : Bool
  putMetadata : Bool
  deriving Repr, DecidableEq

/-- `HandleUpdateRAGIndex` (rag_indices.go), after a successful body decode:
read the existing metadata, overwrite its description with the request body,
write it back. -/
def handleUpdateRAGIndex (f : UpdateIndexFaults) (s : MinioState)
    (indexName : String) (req : UpdateRAGIndexRequest) (now : Nat) :
    HResult RAGIndex × MinioState :=
  match getIndexMetadata s f.getMetadata indexName with
  | .error _ => (.fail (.notFound "RAG index not found"), s)
  | .ok metadata =>
    let updated : RAGIndex := { metadata with description := req.description }
    match putIndexMetadata s f.putMetadata indexName updated now with
    | .error _ => (.fail (.internalServerError "Failed to update index"), s)
    | .ok s2 => (.ok 200 updated, s2)

/-- The loop body of `HandleListRAGIndices`: a bucket whose metadata fetch or
parse fails is skipped (`continue`), any other bucket's parsed metadata is
appended. -/
def listIndicesStep (getFault : String → Bool) (s : MinioState)
    (indices : List RAGIndex) (bucket : String) : List RAGIndex :=
  match getIndexMetadata s (getFault bucket) bucket with
  | .error _ => indices
  | .ok m => indices ++ [m]

/-- `HandleListRAGIndices` (rag_indices.go): list the buckets, then keep
exactly those whose reserved metadata object fetches and parses, skipping the
rest.  `getFault` gives the fault flag of the metadata fetch per bucket. -/
def handleListRAGIndices (listFault : Bool) (getFault : String → Bool)
    (s : MinioState) : HResult (List RAGIndex) :=
  match minioListBuckets s listFault with
  | .error _ => .fail (.internalServerError "Failed to list indices")
  | .ok buckets => .ok 200 (buckets.foldl (listIndicesStep getFault s) [])

/-- One fault flag per storage call site of `HandleListDocuments`. -/
structure ListDocsFaults where
  existsCheck : Bool
  listObjects : Bool
  listStatuses : Bool
  deriving Repr, DecidableEq

/-- The `statusMap` construction of `HandleListDocuments` followed by its
lookup: the Go loop writes `statusMap[s.Filename] = s.Status` in list order,
so a later row with the same filename overwrites an earlier one and the
lookup answers the last matching row. -/
def statusMapLookup (statuses : List DocumentStatus) (filename : String) :
    Option String :=
  (statuses.reverse.find? fun r => r.filename == filename).map fun r => r.status

/-- `HandleListDocuments` (rag_indices.go): existence check, object listing,
best-effort status listing, then the merge loop that skips the reserved
metadata object and attaches a status when the map has one. -/
def handleListDocuments (f : ListDocsFaults) (w : World) (indexName : String) :
    HResult (List RAGDocument) :=
  match minioBucketExists w.minio f.existsCheck indexName with
  | .error _ => .fail (.internalServerError "Failed to check index")
  | .ok false => .fail (.notFound "RAG index not found")
  | .ok true =>
    match minioListObjectsInfo w.minio f.listObjects indexName with
    | .error _ => .fail (.internalServerError "Failed to list documents")
    | .ok objects =>
      let statuses :=
        match dbListDocumentStatusesForIndex w.db f.listStatuses indexName with
        | .error _ => []
        | .ok rows => rows
      .ok 200 (objects.foldl (fun documents obj =>
        if obj.key == metadataFile then documents
        else documents ++ [⟨obj.key, obj.size, obj.lastModified,
          (statusMapLookup statuses obj.key).getD ""⟩]) [])

/-- The parts of a multipart upload the handler reads once the form parse and
`FormFile("file")` have succeeded: the client-sent filename, size, content
type, and the file bytes. -/
structure UploadRequest where
  filename : String
  size : Int
  contentType : String
  content : ObjectData
  deriving Repr, DecidableEq

/-- One fault flag per storage call site of `HandleUploadDocument`. -/
structure UploadFaults where
  existsCheck : Bool
  uploadFile : Bool
  storeStatus : Bool
  deriving Repr, DecidableEq

/-- `HandleUploadDocument` (rag_indices.go), after a successful form parse:
existence check, reserved-name check, extension allowlist check, blob upload
(`Client.UploadFile` is a direct wrapper of the MinIO `PutObject`), then the
best-effort `pending` status insert.  `strings.ToLower` on the extension is
embedded character-wise; on the only characters for which that differs from
Go's Unicode lowercasing, both sides of the allowlist test fail anyway. -/
def handleUploadDocument (f : UploadFaults) (w : World) (indexName : String)
    (req : UploadRequest) (now : Nat) (newId : String) :
    HResult RAGDocument × World :=
  match minioBucketExists w.minio f.existsCheck indexName with
  | .error _ => (.fail (.internalServerError "Failed to check index"), w)
  | .ok false => (.fail (.notFound "RAG index not found"), w)
  | .ok true =>
    if req.filename == metadataFile then
      (.fail (.badRequest "Cannot upload file with reserved name"), w)
    else
      let ext := String.mk ((filepathExt req.filename).toList.map Char.toLower)
      if !supportedExtensions ext then
        (.fail (.badRequest (unsupportedTypeMsg ext)), w)
      else
        let contentType :=
          if req.contentType == "" then "application/octet-stream" else req.contentType
        match minioPutObject w.minio f.uploadFile indexName req.filename req.content
            req.size contentType now with
        | .error _ => (.fail (.internalServerError "Failed to upload file"), w)
        | .ok m2 =>
          let db2 :=
            match dbStoreDocumentStatus w.db f.storeStatus
                ⟨newId, indexName, req.filename, "pending", ""⟩ with
            | .error _ => w.db
            | .ok rows => rows
          (.ok 201 ⟨req.filename, req.size, now, "pending"⟩, ⟨m2, db2⟩)

/-- One fault flag per storage call site of `HandleDeleteDocument`. -/
structure DeleteDocFaults where
  existsCheck : Bool
  deleteFile : Bool
  deleteStatus : Bool
  deriving Repr, DecidableEq

/-- `HandleDeleteDocument` (rag_indices.go): existence check, reserved-name
check, blob deletion, then best-effort status-row deletion. -/
def handleDeleteDocument (f : DeleteDocFaults) (w : World)
    (indexName filename : String) : HResult Unit × World :=
  match minioBucketExists w.minio f.existsCheck indexName with
  | .error _ => (.fail (.internalServerError "Failed to check index"), w)
  | .ok false => (.fail (.notFound "RAG index not found"), w)
  | .ok true =>
    if filename == metadataFile then
      (.fail (.badRequest "Cannot delete reserved file"), w)
    else
      match minioDeleteFile w.minio f.deleteFile indexName filename with
      | .error _ => (.fail (.internalServerError "Failed to delete document"), w)
      | .ok m2 =>
        let db2 :=
          match dbDeleteDocumentStatus w.db f.deleteStatus indexName filename with
          | .error _ => w.db
          | .ok rows => rows
        (.ok 200 (), ⟨m2, db2⟩)

/-- `UpdateStatusRequest`: the decoded JSON body of the worker's status
callback. -/
structure UpdateStatusRequest where
  status : String
  errorMsg : String
  deriving Repr, DecidableEq

/-- `HandleUpdateDocumentStatus` (rag_indices.go), after a successful body
decode: reject an empty status, then upsert the row.  The handler consults
neither the MinIO client nor the bucket: the world's object store is passed
through untouched and unread. -/
def handleUpdateDocumentStatus (dbFault : Bool) (w : World)
    (indexName filename : String) (req : UpdateStatusRequest) :
    HResult Unit × World :=
  if req.status == "" then (.fail (.badRequest "Status is required"), w)
  else
    match dbUpdateDocumentStatus w.db dbFault indexName filename req.status req.errorMsg with
    | .error _ => (.fail (.internalServerError "Failed to update document status"), w)
    | .ok db2 => (.ok 200 (), ⟨w.minio, db2⟩)

/-- Forget which error an `Except` carries. -/
def exceptToOption : Except Unit α → Option α
  | .error _ => none
  | .ok a => some a

/-- Whether the bucket exists and holds an object of that key. -/
def hasObject (s : MinioState) (bucketName objectName : String) : Bool :=
  match findBucket s bucketName with
  | none => false
  | some b => b.objects.any fun o => o.key == objectName

theorem any_eq_isSome_find? {α : Type} (l : List α) (p : α → Bool) :
    l.any p = (l.find? p).isSome := by
  induction l with
  | nil => rfl
  | cons a t ih =>
    by_cases h : p a = true <;> simp [h, ih, List.find?_cons]

theorem any_filter_out {α : Type} (l : List α) (p : α → Bool) :
    ((l.filter fun x => !(p x)).any p) = false := by
  induction l with
  | nil => rfl
  | cons a t ih =>
    by_cases h : p a = true <;> simp [List.filter_cons, h, ih]

theorem find?_filter_out_append {α : Type} (l : List α) (p : α → Bool) (x : α)
    (hx : p x = true) :
    (((l.filter fun y => !(p y)) ++ [x]).find? p) = some x := by
  induction l with
  | nil => simp [List.find?_cons, hx]
  | cons a t ih =>
    by_cases h : p a = true <;> simp [List.filter_cons, h, ih, List.find?_cons]

theorem any_filter_out_append {α : Type} (l : List α) (p : α → Bool) (x : α)
    (hx : p x = true) :
    (((l.filter fun y => !(p y)) ++ [x]).any p) = true := by
  rw [any_eq_isSome_find?, find?_filter_out_append l p x hx]
  rfl

theorem find?_map_name_update (l : List Bucket) (n m : String) (g : Bucket → Bucket)
    (hg : ∀ b, (g b).name = b.name) :
    ((l.map fun b => if b.name == n then g b else b).find? fun b => b.name == m)
      = (l.find? fun b => b.name == m).map fun b => if b.name == n then g b else b := by
  induction l with
  | nil => rfl
  | cons b rest ih =>
    simp only [List.map_cons]
    by_cases hbm : (b.name == m) = true
    · by_cases hbn : (b.name == n) = true
      · have h2 : ((g b).name == m) = true := by rw [hg b]; exact hbm
        rw [if_pos hbn]
        simp only [List.find?_cons, h2, hbm, Option.map_some']
        rw [if_pos hbn]
      · rw [if_neg hbn]
        simp only [List.find?_cons, hbm, Option.map_some']
        rw [if_neg hbn]
    · rw [Bool.not_eq_true] at hbm
      by_cases hbn : (b.name == n) = true
      · have h2 : ((g b).name == m) = false := by
          rw [hg b]; exact hbm
        rw [if_pos hbn]
        simp only [List.find?_cons, h2, hbm]
        exact ih
      · rw [if_neg hbn]
        simp only [List.find?_cons, hbm]
        exact ih

theorem findBucket_map_update (s : MinioState) (n m : String) (g : Bucket → Bucket)
    (hg : ∀ b, (g b).name = b.name) :
    findBucket ⟨s.buckets.map fun b => if b.name == n then g b else b⟩ m
      = (findBucket s m).map fun b => if b.name == n then g b else b := by
  unfold findBucket
  exact find?_map_name_update s.buckets n m g hg

theorem hasBucket_eq_isSome (s : MinioState) (n : String) :
    hasBucket s n = (findBucket s n).isSome := by
  unfold hasBucket findBucket
  exact any_eq_isSome_find? s.buckets _

theorem hasBucket_map_update (s : MinioState) (n m : String) (g : Bucket → Bucket)
    (hg : ∀ b, (g b).name = b.name) :
    hasBucket ⟨s.buckets.map fun b => if b.name == n then g b else b⟩ m
      = hasBucket s m := by
  rw [hasBucket_eq_isSome, hasBucket_eq_isSome, findBucket_map_update s n m g hg]
  cases findBucket s m <;> rfl

theorem hasBucket_filter_out (l : List Bucket) (n : String) :
    hasBucket ⟨l.filter fun b => !(b.name == n)⟩ n = false := by
  unfold hasBucket
  exact any_filter_out l _

theorem hasBucket_append_self (l : List Bucket) (hooks : List String)
    (objs : List StoredObject) (n : String) :
    hasBucket ⟨l ++ [⟨n, hooks, objs⟩]⟩ n = true := by
  unfold hasBucket
  simp

theorem findBucket_eq_none (s : MinioState) (n : String)
    (h : hasBucket s n = false) : findBucket s n = none := by
  rw [hasBucket_eq_isSome] at h
  cases hfb : findBucket s n
  · rfl
  · rw [hfb] at h
    simp at h

theorem findBucket_isSome (s : MinioState) (n : String)
    (h : hasBucket s n = true) : ∃ b, findBucket s n = some b := by
  rw [hasBucket_eq_isSome] at h
  cases hfb : findBucket s n
  · rw [hfb] at h
    simp at h
  · exact ⟨_, rfl⟩

theorem hasBucket_of_findBucket (s : MinioState) (n : String) (b : Bucket)
    (h : findBucket s n = some b) : hasBucket s n = true := by
  rw [hasBucket_eq_isSome, h]
  rfl

theorem foldl_opt_append {α β : Type} (g : α → Option β) (f : List β → α → List β)
    (hf : ∀ acc a, f acc a = match g a with | none => acc | some b => acc ++ [b])
    (l : List α) (init : List β) :
    l.foldl f init = init ++ l.filterMap g := by
  induction l generalizing init with
  | nil => simp
  | cons a t ih =>
    rw [List.foldl_cons, hf init a, List.filterMap_cons]
    cases hga : g a with
    | none => rw [ih]
    | some b => rw [ih]; simp

theorem toLower_eq_self_of_allowed (c : Char)
    (h : (isAlphanumeric c || c == '-') = true) : Char.toLower c = c := by
  unfold Char.toLower
  have hc : ¬(c.toNat ≥ 65 ∧ c.toNat ≤ 90) := by
    simp only [isAlphanumeric, Bool.or_eq_true, Bool.and_eq_true, decide_eq_true_eq,
      beq_iff_eq] at h
    rcases h with (⟨h1, h2⟩ | ⟨h1, h2⟩) | h1
    · have h1' : 97 ≤ c.toNat := h1
      omega
    · have h2' : c.toNat ≤ 57 := h2
      omega
    · subst h1
      decide
  simp [hc]

theorem map_toLower_of_allowed (cs : List Char)
    (h : (cs.all fun c => isAlphanumeric c || c == '-') = true) :
    cs.map Char.toLower = cs := by
  induction cs with
  | nil => rfl
  | cons c rest ih =>
    simp only [List.all_cons, Bool.and_eq_true] at h
    simp [toLower_eq_self_of_allowed c h.1, ih h.2]

/-- C5: `isValidIndexName` accepts a string iff it is 1–63 characters of
lowercase alphanumerics and hyphens starting and ending with an alphanumeric;
in particular it rejects the empty string, strings longer than 63 characters,
strings with an uppercase letter, strings starting or ending with a hyphen, and
any string with a character outside `[a-z0-9-]`. -/
theorem isValidIndexName_iff_spec (name : String) :
    isValidIndexName name = specValidIndexName name := by
  unfold isValidIndexName specValidIndexName
  simp only [isAlphanumeric]
  generalize name.toList = cs
  by_cases hA : (cs.length == 0 || decide (cs.length > 63)) = true
  · rw [if_pos hA]
    simp only [Bool.or_eq_true, beq_iff_eq, decide_eq_true_eq] at hA
    have hlen : (decide (1 ≤ cs.length) && decide (cs.length ≤ 63)) = false := by
      rcases hA with h | h
      · simp [h]
      · simp [Nat.not_le.mpr h]
    rw [hlen]
    simp
  · rw [if_neg (by simp [hA])]
    simp only [Bool.or_eq_true, beq_iff_eq, decide_eq_true_eq, not_or] at hA
    have hlen : (decide (1 ≤ cs.length) && decide (cs.length ≤ 63)) = true := by
      have h1 : 1 ≤ cs.length := Nat.one_le_iff_ne_zero.mpr hA.1
      have h2 : cs.length ≤ 63 := Nat.not_lt.mp hA.2
      simp [h1, h2]
    rw [hlen]
    by_cases hH : (match cs.head? with
        | some c => (('a' ≤ c) && (c ≤ 'z')) || (('0' ≤ c) && (c ≤ '9'))
        | none => false) = true
    · by_cases hL : (match cs.getLast? with
          | some c => (('a' ≤ c) && (c ≤ 'z')) || (('0' ≤ c) && (c ≤ '9'))
          | none => false) = true
      · rw [hH, hL]
        by_cases hAl : (cs.all fun c =>
            ((('a' ≤ c) && (c ≤ 'z')) || (('0' ≤ c) && (c ≤ '9'))) || c == '-') = true
        · rw [if_neg (by simp [hH, hL]), if_neg (by simp [hAl])]
          have hmap : cs.map Char.toLower = cs := by
            refine map_toLower_of_allowed cs ?_
            simpa [isAlphanumeric] using hAl
          have hAl' : (cs.all fun c =>
              (('a' ≤ c) && (c ≤ 'z')) || (('0' ≤ c) && (c ≤ '9')) || c == '-') = true := by
            simpa [Bool.or_assoc] using hAl
          rw [hAl']
          simp [hmap]
        · rw [if_neg (by simp [hH, hL]), if_pos (by simp [hAl])]
          have hAl' : (cs.all fun c =>
              (('a' ≤ c) && (c ≤ 'z')) || (('0' ≤ c) && (c ≤ '9')) || c == '-') = false := by
            rw [Bool.eq_false_iff]
            intro hcon
            exact hAl (by simpa [Bool.or_assoc] using hcon)
          rw [hAl']
          simp
      · rw [Bool.not_eq_true] at hL
        rw [hL]
        rw [if_pos (by simp [hL])]
        simp
    · rw [Bool.not_eq_true] at hH
      rw [hH]
      rw [if_pos (by simp [hH])]
      simp


theorem setNotification_ok (s : MinioState) (n token : String)
    (h : hasBucket s n = true) :
    minioSetBucketNotification s false n token
      = .ok ⟨s.buckets.map fun b =>
          if b.name == n then
            { b with eventHooks :=
                if b.eventHooks.contains token then b.eventHooks
                else b.eventHooks ++ [token] }
          else b⟩ := by
  unfold minioSetBucketNotification
  obtain ⟨b, hb⟩ := findBucket_isSome s n h
  simp [hb]

theorem putObject_ok (s : MinioState) (n k : String) (d : ObjectData) (sz : Int)
    (ct : String) (now : Nat) (h : hasBucket s n = true) :
    minioPutObject s false n k d sz ct now
      = .ok ⟨s.buckets.map fun b =>
          if b.name == n then
            { b with objects := (b.objects.filter fun o => !(o.key == k))
                ++ [⟨k, sz, ct, now, d⟩] }
          else b⟩ := by
  unfold minioPutObject
  obtain ⟨b, hb⟩ := findBucket_isSome s n h
  simp [hb]

theorem deleteFile_ok (s : MinioState) (n k : String) (h : hasBucket s n = true) :
    minioDeleteFile s false n k
      = .ok ⟨s.buckets.map fun b =>
          if b.name == n then
            { b with objects := b.objects.filter fun o => !(o.key == k) }
          else b⟩ := by
  unfold minioDeleteFile
  obtain ⟨b, hb⟩ := findBucket_isSome s n h
  simp [hb]

theorem deleteBucket_ok (s : MinioState) (n : String) (h : hasBucket s n = true) :
    minioDeleteBucket s false n = .ok ⟨s.buckets.filter fun b => !(b.name == n)⟩ := by
  unfold minioDeleteBucket
  simp [h]

theorem rollbackDeleteBucket_ok (s : MinioState) (n : String)
    (h : hasBucket s n = true) :
    rollbackDeleteBucket s false n = ⟨s.buckets.filter fun b => !(b.name == n)⟩ := by
  unfold rollbackDeleteBucket
  rw [deleteBucket_ok s n h]


/-- C1 (amended): when the metadata-object write fails during `CreateIndex`
after the bucket was created and the notification hook armed, the handler
responds with the metadata-write InternalServerError whatever the compensating
deletion does; and whenever the compensating `DeleteBucket` itself does not
fault, the bucket is gone, so a subsequent `BucketExists` check for that name
answers false. -/
theorem createIndex_metadata_failure_rolls_back (f : CreateFaults) (s : MinioState)
    (req : CreateRAGIndexRequest) (now : Nat)
    (hname : isValidIndexName req.name = true)
    (hex : f.existsCheck = false)
    (habsent : hasBucket s req.name = false)
    (hcb : f.createBucket = false)
    (hsn : f.setNotification = false)
    (hpm : f.putMetadata = true) :
    (handleCreateRAGIndex f s req now).1
        = .fail (.internalServerError "Failed to create index metadata") ∧
    (f.rollbackDelete = false →
      hasBucket (handleCreateRAGIndex f s req now).2 req.name = false) := by
  have hne : (req.name == "") = false := by
    cases h : (req.name == "") with
    | false => rfl
    | true =>
      have he : req.name = "" := by simpa using h
      rw [he] at hname
      exact absurd hname (by decide)
  have h1 : hasBucket ⟨s.buckets ++ [⟨req.name, [], []⟩]⟩ req.name = true :=
    hasBucket_append_self s.buckets [] [] req.name
  have hsn2 := setNotification_ok ⟨s.buckets ++ [⟨req.name, [], []⟩]⟩ req.name "KAGENT" h1
  have h2 := (hasBucket_map_update ⟨s.buckets ++ [⟨req.name, [], []⟩]⟩ req.name req.name
      (fun b => { b with eventHooks :=
          if b.eventHooks.contains "KAGENT" then b.eventHooks
          else b.eventHooks ++ ["KAGENT"] }) (fun b => rfl)).trans h1
  unfold handleCreateRAGIndex
  rw [hne, hex, hcb, hsn, hpm]
  unfold minioBucketExists
  rw [habsent]
  unfold minioCreateBucket
  rw [habsent]
  simp only [hname, Bool.not_true, Bool.false_eq_true, if_false, Bool.true_eq_false]
  rw [hsn2]
  unfold putIndexMetadata minioPutObject
  simp only [if_pos rfl]
  refine ⟨rfl, fun hrb => ?_⟩
  rw [hrb]
  rw [rollbackDeleteBucket_ok _ req.name h2]
  exact hasBucket_filter_out _ req.name

/-- C1 counterexample: with the claim read over every fault pattern, injecting
a fault into the compensating deletion as well leaves the bucket behind: the
handler still answers the metadata-write InternalServerError, but a subsequent
`BucketExists` check answers true, not false. -/
theorem createIndex_rollback_failure_leaves_bucket :
    (handleCreateRAGIndex ⟨false, false, false, true, true⟩ ⟨[]⟩ ⟨"idx", ""⟩ 0).1
        = .fail (.internalServerError "Failed to create index metadata") ∧
    hasBucket (handleCreateRAGIndex ⟨false, false, false, true, true⟩
        ⟨[]⟩ ⟨"idx", ""⟩ 0).2 "idx" = true := by
  constructor
  · rfl
  · rfl

/-- C1 witness: the amended theorem applied at a concrete run whose
compensating deletion is fault-free. -/
theorem createIndex_metadata_failure_rolls_back_witness :
    (handleCreateRAGIndex ⟨false, false, false, true, false⟩ ⟨[]⟩ ⟨"idx", ""⟩ 0).1
        = .fail (.internalServerError "Failed to create index metadata") ∧
    ((⟨false, false, false, true, false⟩ : CreateFaults).rollbackDelete = false →
      hasBucket (handleCreateRAGIndex ⟨false, false, false, true, false⟩
          ⟨[]⟩ ⟨"idx", ""⟩ 0).2 "idx" = false) :=
  createIndex_metadata_failure_rolls_back ⟨false, false, false, true, false⟩ ⟨[]⟩
    ⟨"idx", ""⟩ 0 (by decide) rfl (by decide) rfl rfl rfl


theorem beq_false_of_ne {α : Type} [BEq α] [LawfulBEq α] (a b : α) (h : a ≠ b) :
    (a == b) = false := by
  cases hab : a == b
  · rfl
  · exact absurd (by simpa using hab) h

theorem findBucket_name (s : MinioState) (n : String) (b : Bucket)
    (h : findBucket s n = some b) : (b.name == n) = true := by
  unfold findBucket at h
  have h2 := List.find?_some h
  simpa using h2

theorem hasObject_after_deleteFile (s : MinioState) (n k : String)
    (h : hasBucket s n = true) :
    hasObject ⟨s.buckets.map fun b =>
        if b.name == n then { b with objects := b.objects.filter fun o => !(o.key == k) }
        else b⟩ n k = false := by
  unfold hasObject
  rw [findBucket_map_update s n n
    (fun b => { b with objects := b.objects.filter fun o => !(o.key == k) })
    (fun b => rfl)]
  obtain ⟨b, hb⟩ := findBucket_isSome s n h
  rw [hb]
  simp only [Option.map_some']
  rw [if_pos (findBucket_name s n b hb)]
  exact any_filter_out b.objects _

theorem hasObject_after_putObject (s : MinioState) (n k : String) (d : ObjectData)
    (sz : Int) (ct : String) (now : Nat) (h : hasBucket s n = true) :
    hasObject ⟨s.buckets.map fun b =>
        if b.name == n then
          { b with objects := (b.objects.filter fun o => !(o.key == k))
              ++ [⟨k, sz, ct, now, d⟩] }
        else b⟩ n k = true := by
  unfold hasObject
  rw [findBucket_map_update s n n
    (fun b => { b with objects := (b.objects.filter fun o => !(o.key == k))
        ++ [⟨k, sz, ct, now, d⟩] })
    (fun b => rfl)]
  obtain ⟨b, hb⟩ := findBucket_isSome s n h
  rw [hb]
  simp only [Option.map_some']
  rw [if_pos (findBucket_name s n b hb)]
  exact any_filter_out_append b.objects _ _ (by simp)

/-- C3 counterexample: with the target bucket absent, an upload whose filename
is the reserved metadata name is rejected NotFound, not BadRequest — the
existence check runs before the filename checks. -/
theorem upload_absent_index_reserved_not_badRequest :
    ((handleUploadDocument ⟨false, false, false⟩ ⟨⟨[]⟩, []⟩ "idx"
        ⟨".metadata.json", 1, "", .blob []⟩ 0 "u").1).isBadRequest = false ∧
    (handleUploadDocument ⟨false, false, false⟩ ⟨⟨[]⟩, []⟩ "idx"
        ⟨".metadata.json", 1, "", .blob []⟩ 0 "u").1
      = .fail (.notFound "RAG index not found") := ⟨rfl, rfl⟩

/-- C3 (amended): for a target index whose bucket exists (and a fault-free
existence check), an upload whose filename equals the reserved metadata name
or whose lowercased extension is outside the allowlist is rejected BadRequest,
and the world is left unchanged; when the bucket is absent the request instead
fails NotFound before the filename is inspected. -/
theorem upload_rejects_reserved_and_bad_extension (f : UploadFaults) (w : World)
    (indexName : String) (req : UploadRequest) (now : Nat) (newId : String)
    (hex : f.existsCheck = false)
    (hbucket : hasBucket w.minio indexName = true)
    (hbad : req.filename = metadataFile ∨
      supportedExtensions (String.mk ((filepathExt req.filename).toList.map Char.toLower))
        = false) :
    ((handleUploadDocument f w indexName req now newId).1).isBadRequest = true ∧
    (handleUploadDocument f w indexName req now newId).2 = w := by
  obtain ⟨fex, fup, fst⟩ := f
  cases hex
  unfold handleUploadDocument minioBucketExists
  rw [hbucket]
  by_cases hfn : (req.filename == metadataFile) = true
  · simp only [hfn]
    exact ⟨rfl, rfl⟩
  · rw [Bool.not_eq_true] at hfn
    rcases hbad with hbad | hbad
    · rw [hbad] at hfn
      simp at hfn
    · simp only [hfn, hbad]
      exact ⟨rfl, rfl⟩

/-- C3 witness: the amended theorem applied to a reserved-name upload against
an existing bucket. -/
theorem upload_rejects_reserved_witness :
    ((handleUploadDocument ⟨false, false, false⟩ ⟨⟨[⟨"idx", [], []⟩]⟩, []⟩ "idx"
        ⟨".metadata.json", 1, "", .blob []⟩ 0 "u").1).isBadRequest = true ∧
    (handleUploadDocument ⟨false, false, false⟩ ⟨⟨[⟨"idx", [], []⟩]⟩, []⟩ "idx"
        ⟨".metadata.json", 1, "", .blob []⟩ 0 "u").2 = ⟨⟨[⟨"idx", [], []⟩]⟩, []⟩ :=
  upload_rejects_reserved_and_bad_extension ⟨false, false, false⟩
    ⟨⟨[⟨"idx", [], []⟩]⟩, []⟩ "idx" ⟨".metadata.json", 1, "", .blob []⟩ 0 "u"
    rfl rfl (Or.inl rfl)

/-- C4 counterexample: deleting a document of an absent index fails NotFound,
an outcome the claim rules out. -/
theorem deleteDocument_absent_index_notFound :
    (handleDeleteDocument ⟨false, false, false⟩ ⟨⟨[]⟩, []⟩ "idx" "a.txt").1
      = .fail (.notFound "RAG index not found") := rfl

/-- C4 (amended): the failure outcomes of document deletion are NotFound
(exactly when the fault-free existence check answers that the bucket is
absent), BadRequest (the reserved metadata filename) and InternalServerError
(a storage fault); a missing document blob by itself causes no failure, and on
the fault-free success path the blob is gone whatever the best-effort
status-row deletion does. -/
theorem deleteDocument_outcomes (f : DeleteDocFaults) (w : World)
    (indexName filename : String) :
    (∀ e, (handleDeleteDocument f w indexName filename).1 = .fail e →
       e = .notFound "RAG index not found" ∨
       e = .badRequest "Cannot delete reserved file" ∨
       e = .internalServerError "Failed to check index" ∨
       e = .internalServerError "Failed to delete document") ∧
    ((handleDeleteDocument f w indexName filename).1
        = .fail (.notFound "RAG index not found")
      ↔ (f.existsCheck = false ∧ hasBucket w.minio indexName = false)) ∧
    (f.existsCheck = false → hasBucket w.minio indexName = true →
     filename ≠ metadataFile → f.deleteFile = false →
       (handleDeleteDocument f w indexName filename).1 = .ok 200 () ∧
       hasObject (handleDeleteDocument f w indexName filename).2.minio indexName filename
         = false) := by
  obtain ⟨fex, fdel, fst⟩ := f
  cases fex
  · cases hbk : hasBucket w.minio indexName
    · have hres : handleDeleteDocument ⟨false, fdel, fst⟩ w indexName filename
          = (.fail (.notFound "RAG index not found"), w) := by
        unfold handleDeleteDocument minioBucketExists
        rw [hbk]
        rfl
      rw [hres]
      refine ⟨fun e he => ?_, by simp, fun _ hbk2 _ _ => ?_⟩
      · cases he
        exact Or.inl rfl
      · cases hbk2
    · by_cases hfn : (filename == metadataFile) = true
      · have hres : handleDeleteDocument ⟨false, fdel, fst⟩ w indexName filename
            = (.fail (.badRequest "Cannot delete reserved file"), w) := by
          unfold handleDeleteDocument minioBucketExists
          rw [hbk, hfn]
          rfl
        rw [hres]
        refine ⟨fun e he => ?_, by simp, fun _ _ hne _ => ?_⟩
        · cases he
          exact Or.inr (Or.inl rfl)
        · exact absurd (by simpa using hfn) hne
      · rw [Bool.not_eq_true] at hfn
        cases fdel
        · have hres : (handleDeleteDocument ⟨false, false, fst⟩ w indexName filename).1
                = .ok 200 ()
              ∧ (handleDeleteDocument ⟨false, false, fst⟩ w indexName filename).2.minio
                = ⟨w.minio.buckets.map fun b =>
                    if b.name == indexName then
                      { b with objects := b.objects.filter fun o => !(o.key == filename) }
                    else b⟩ := by
            unfold handleDeleteDocument minioBucketExists
            rw [hbk, hfn, deleteFile_ok w.minio indexName filename hbk]
            cases fst <;> exact ⟨rfl, rfl⟩
          refine ⟨fun e he => ?_, ?_, fun _ _ _ _ => ⟨hres.1, ?_⟩⟩
          · rw [hres.1] at he
            cases he
          · rw [hres.1]
            simp
          · rw [hres.2]
            exact hasObject_after_deleteFile w.minio indexName filename hbk
        · have hres : handleDeleteDocument ⟨false, true, fst⟩ w indexName filename
              = (.fail (.internalServerError "Failed to delete document"), w) := by
            unfold handleDeleteDocument minioBucketExists
            rw [hbk, hfn]
            rfl
          rw [hres]
          refine ⟨fun e he => ?_, by simp, fun _ _ _ hdf => ?_⟩
          · cases he
            exact Or.inr (Or.inr (Or.inr rfl))
          · cases hdf
  · have hres : handleDeleteDocument ⟨true, fdel, fst⟩ w indexName filename
        = (.fail (.internalServerError "Failed to check index"), w) := rfl
    rw [hres]
    refine ⟨fun e he => ?_, by simp, fun hx _ _ _ => ?_⟩
    · cases he
      exact Or.inr (Or.inr (Or.inl rfl))
    · cases hx


/-- C2: the index listing answers OK for every fault-free bucket listing, it
contains the parsed metadata of every bucket whose reserved metadata object
fetches and parses, and everything it contains is the parsed metadata of some
listed bucket — a bucket whose metadata is missing, unreadable or unparsable
is silently skipped and never surfaces as an error. -/
theorem listIndices_iff_metadata (getFault : String → Bool) (s : MinioState) :
    ∃ indices, handleListRAGIndices false getFault s = .ok 200 indices ∧
      (∀ bucket ∈ s.buckets.map fun b => b.name,
        ∀ m, getIndexMetadata s (getFault bucket) bucket = .ok m → m ∈ indices) ∧
      (∀ idx ∈ indices, ∃ bucket, bucket ∈ (s.buckets.map fun b => b.name) ∧
        getIndexMetadata s (getFault bucket) bucket = .ok idx) := by
  refine ⟨(s.buckets.map fun b => b.name).filterMap
      fun bucket => exceptToOption (getIndexMetadata s (getFault bucket) bucket),
    ?_, ?_, ?_⟩
  · unfold handleListRAGIndices minioListBuckets
    simp only [Bool.false_eq_true, if_false]
    rw [foldl_opt_append
      (fun bucket => exceptToOption (getIndexMetadata s (getFault bucket) bucket))
      (listIndicesStep getFault s)
      (fun acc a => by
        cases h : getIndexMetadata s (getFault a) a <;>
          simp [listIndicesStep, h, exceptToOption])
      (s.buckets.map fun b => b.name) []]
    rfl
  · intro bucket hb m hm
    rw [List.mem_filterMap]
    exact ⟨bucket, hb, by rw [hm]; rfl⟩
  · intro idx hidx
    rw [List.mem_filterMap] at hidx
    obtain ⟨bucket, hb, hg⟩ := hidx
    refine ⟨bucket, hb, ?_⟩
    cases h : getIndexMetadata s (getFault bucket) bucket with
    | error e =>
      rw [h] at hg
      simp [exceptToOption] at hg
    | ok m =>
      rw [h] at hg
      simp [exceptToOption] at hg
      rw [hg]


/-- C6: with a non-empty status in the body, the worker's status callback
fails InternalServerError exactly when the status store itself faults; the
object store is passed through untouched, and the result never depends on it
(so the target document's absence never causes a failure); on the fault-free
path the (index, filename) row is upserted with the requested status and
error message. -/
theorem updateDocumentStatus_upserts (dbFault : Bool) (w : World)
    (indexName filename : String) (req : UpdateStatusRequest)
    (hst : req.status ≠ "") :
    ((handleUpdateDocumentStatus dbFault w indexName filename req).1
        = .fail (.internalServerError "Failed to update document status")
      ↔ dbFault = true) ∧
    (handleUpdateDocumentStatus dbFault w indexName filename req).2.minio = w.minio ∧
    (∀ m2 : MinioState,
      (handleUpdateDocumentStatus dbFault ⟨m2, w.db⟩ indexName filename req).1
        = (handleUpdateDocumentStatus dbFault w indexName filename req).1) ∧
    (dbFault = false →
      (handleUpdateDocumentStatus dbFault w indexName filename req).1 = .ok 200 () ∧
      ∃ rid, (⟨rid, indexName, filename, req.status, req.errorMsg⟩ : DocumentStatus)
          ∈ (handleUpdateDocumentStatus dbFault w indexName filename req).2.db) := by
  have hbe : (req.status == "") = false := beq_false_of_ne _ _ hst
  cases dbFault
  · have hres : ∀ db2 : List DocumentStatus,
        handleUpdateDocumentStatus false ⟨w.minio, db2⟩ indexName filename req
          = (.ok 200 (), ⟨w.minio, (db2.filter fun r =>
              !(r.indexName == indexName && r.filename == filename)) ++
              [⟨(((db2.find? fun r =>
                    r.indexName == indexName && r.filename == filename).map
                  fun r => r.id).getD ""), indexName, filename,
                req.status, req.errorMsg⟩]⟩) := by
      intro db2
      unfold handleUpdateDocumentStatus dbUpdateDocumentStatus
      rw [hbe]
      rfl
    have hw : w = ⟨w.minio, w.db⟩ := rfl
    rw [hw, hres w.db]
    refine ⟨by simp, rfl, fun m2 => ?_, fun _ => ⟨rfl, ?_⟩⟩
    · have hres2 : handleUpdateDocumentStatus false ⟨m2, w.db⟩ indexName filename req
          = (.ok 200 (), ⟨m2, (w.db.filter fun r =>
              !(r.indexName == indexName && r.filename == filename)) ++
              [⟨(((w.db.find? fun r =>
                    r.indexName == indexName && r.filename == filename).map
                  fun r => r.id).getD ""), indexName, filename,
                req.status, req.errorMsg⟩]⟩) := by
        unfold handleUpdateDocumentStatus dbUpdateDocumentStatus
        rw [hbe]
        rfl
      rw [hres2]
    · exact ⟨((w.db.find? fun r =>
          r.indexName == indexName && r.filename == filename).map
        fun r => r.id).getD "", by simp⟩
  · have hres : ∀ (m2 : MinioState) (db2 : List DocumentStatus),
        handleUpdateDocumentStatus true ⟨m2, db2⟩ indexName filename req
          = (.fail (.internalServerError "Failed to update document status"),
             ⟨m2, db2⟩) := by
      intro m2 db2
      unfold handleUpdateDocumentStatus dbUpdateDocumentStatus
      rw [hbe]
      rfl
    have hw : w = ⟨w.minio, w.db⟩ := rfl
    rw [hw, hres w.minio w.db]
    refine ⟨by simp, rfl, fun m2 => ?_, fun hc => ?_⟩
    · rw [hres m2 w.db]
    · cases hc

/-- C6 witness: the theorem applied at a fault-free store with an empty status
table. -/
theorem updateDocumentStatus_upserts_witness :
    ((handleUpdateDocumentStatus false ⟨⟨[]⟩, []⟩ "idx" "a.txt" ⟨"completed", ""⟩).1
        = .fail (.internalServerError "Failed to update document status")
      ↔ false = true) ∧
    (handleUpdateDocumentStatus false ⟨⟨[]⟩, []⟩ "idx" "a.txt" ⟨"completed", ""⟩).2.minio
      = (⟨⟨[]⟩, []⟩ : World).minio ∧
    (∀ m2 : MinioState,
      (handleUpdateDocumentStatus false ⟨m2, (⟨⟨[]⟩, []⟩ : World).db⟩ "idx" "a.txt"
          ⟨"completed", ""⟩).1
        = (handleUpdateDocumentStatus false ⟨⟨[]⟩, []⟩ "idx" "a.txt"
            ⟨"completed", ""⟩).1) ∧
    (false = false →
      (handleUpdateDocumentStatus false ⟨⟨[]⟩, []⟩ "idx" "a.txt"
          ⟨"completed", ""⟩).1 = .ok 200 () ∧
      ∃ rid, (⟨rid, "idx", "a.txt", "completed", ""⟩ : DocumentStatus)
          ∈ (handleUpdateDocumentStatus false ⟨⟨[]⟩, []⟩ "idx" "a.txt"
              ⟨"completed", ""⟩).2.db) :=
  updateDocumentStatus_upserts false ⟨⟨[]⟩, []⟩ "idx" "a.txt" ⟨"completed", ""⟩
    (by decide)

/-- C7: index deletion answers NotFound exactly on an absent bucket; on the
fault-free path it removes the bucket and then best-effort removes the status
rows of the index: a status-store fault leaves the rows behind but the
request still answers OK with the bucket already gone. -/
theorem deleteIndex_cascade (f : DeleteIndexFaults) (w : World) (indexName : String)
    (hex : f.existsCheck = false) :
    (hasBucket w.minio indexName = false →
      handleDeleteRAGIndex f w indexName = (.fail (.notFound "RAG index not found"), w)) ∧
    (hasBucket w.minio indexName = true → f.deleteBucket = false →
      (handleDeleteRAGIndex f w indexName).1 = .ok 200 () ∧
      hasBucket (handleDeleteRAGIndex f w indexName).2.minio indexName = false ∧
      (handleDeleteRAGIndex f w indexName).2.db
        = (if f.deleteStatuses then w.db
           else w.db.filter fun r => !(r.indexName == indexName))) := by
  obtain ⟨fex, fdb, fst⟩ := f
  cases hex
  constructor
  · intro hbk
    unfold handleDeleteRAGIndex minioBucketExists
    rw [hbk]
    rfl
  · intro hbk hdb
    cases hdb
    unfold handleDeleteRAGIndex minioBucketExists
    rw [hbk, deleteBucket_ok w.minio indexName hbk]
    cases fst
    · exact ⟨rfl, hasBucket_filter_out w.minio.buckets indexName, rfl⟩
    · exact ⟨rfl, hasBucket_filter_out w.minio.buckets indexName, rfl⟩

/-- C7 witness: the theorem applied to a store holding one empty index bucket
and no status rows. -/
theorem deleteIndex_cascade_witness :
    (hasBucket (⟨⟨[⟨"idx", [], []⟩]⟩, []⟩ : World).minio "idx" = false →
      handleDeleteRAGIndex ⟨false, false, false⟩ ⟨⟨[⟨"idx", [], []⟩]⟩, []⟩ "idx"
        = (.fail (.notFound "RAG index not found"), ⟨⟨[⟨"idx", [], []⟩]⟩, []⟩)) ∧
    (hasBucket (⟨⟨[⟨"idx", [], []⟩]⟩, []⟩ : World).minio "idx" = true →
     (⟨false, false, false⟩ : DeleteIndexFaults).deleteBucket = false →
      (handleDeleteRAGIndex ⟨false, false, false⟩ ⟨⟨[⟨"idx", [], []⟩]⟩, []⟩ "idx").1
        = .ok 200 () ∧
      hasBucket (handleDeleteRAGIndex ⟨false, false, false⟩
          ⟨⟨[⟨"idx", [], []⟩]⟩, []⟩ "idx").2.minio "idx" = false ∧
      (handleDeleteRAGIndex ⟨false, false, false⟩ ⟨⟨[⟨"idx", [], []⟩]⟩, []⟩ "idx").2.db
        = (if (⟨false, false, false⟩ : DeleteIndexFaults).deleteStatuses
           then (⟨⟨[⟨"idx", [], []⟩]⟩, []⟩ : World).db
           else (⟨⟨[⟨"idx", [], []⟩]⟩, []⟩ : World).db.filter
             fun r => !(r.indexName == "idx"))) :=
  deleteIndex_cascade ⟨false, false, false⟩ ⟨⟨[⟨"idx", [], []⟩]⟩, []⟩ "idx" rfl


/-- C8: a valid upload (existing bucket, non-reserved filename, allowed
extension, fault-free blob write) answers Created with the document and the
blob is in the bucket; the best-effort `pending` status insert does not decide
the outcome: when the status store faults the rows are unchanged but the
response is the same, and when it does not fault the `pending` row is
there. -/
theorem uploadDocument_success (f : UploadFaults) (w : World) (indexName : String)
    (req : UploadRequest) (now : Nat) (newId : String)
    (hex : f.existsCheck = false)
    (hbucket : hasBucket w.minio indexName = true)
    (hfn : req.filename ≠ metadataFile)
    (hext : supportedExtensions
        (String.mk ((filepathExt req.filename).toList.map Char.toLower)) = true)
    (hup : f.uploadFile = false) :
    (handleUploadDocument f w indexName req now newId).1
      = .ok 201 ⟨req.filename, req.size, now, "pending"⟩ ∧
    hasObject (handleUploadDocument f w indexName req now newId).2.minio
      indexName req.filename = true ∧
    (f.storeStatus = true →
      (handleUploadDocument f w indexName req now newId).2.db = w.db) ∧
    (f.storeStatus = false →
      (⟨newId, indexName, req.filename, "pending", ""⟩ : DocumentStatus)
        ∈ (handleUploadDocument f w indexName req now newId).2.db) := by
  obtain ⟨fex, fup, fst⟩ := f
  cases hex
  cases hup
  have hbe : (req.filename == metadataFile) = false := beq_false_of_ne _ _ hfn
  cases fst
  · unfold handleUploadDocument minioBucketExists
    rw [hbucket]
    simp only [hbe, Bool.false_eq_true, if_false]
    rw [hext]
    simp only [Bool.not_true, Bool.false_eq_true, if_false]
    rw [putObject_ok w.minio indexName req.filename req.content req.size _ now hbucket]
    refine ⟨rfl, ?_, fun hc => ?_, fun _ => ?_⟩
    · exact hasObject_after_putObject w.minio indexName req.filename req.content
        req.size _ now hbucket
    · cases hc
    · simp [dbStoreDocumentStatus]
  · unfold handleUploadDocument minioBucketExists
    rw [hbucket]
    simp only [hbe, Bool.false_eq_true, if_false]
    rw [hext]
    simp only [Bool.not_true, Bool.false_eq_true, if_false]
    rw [putObject_ok w.minio indexName req.filename req.content req.size _ now hbucket]
    refine ⟨rfl, ?_, fun _ => rfl, fun hc => ?_⟩
    · exact hasObject_after_putObject w.minio indexName req.filename req.content
        req.size _ now hbucket
    · cases hc

/-- C8 witness: a fault-free upload of "a.txt" into an existing empty
index. -/
theorem uploadDocument_success_witness :
    (handleUploadDocument ⟨false, false, false⟩ ⟨⟨[⟨"idx", [], []⟩]⟩, []⟩ "idx"
        ⟨"a.txt", 3, "", .blob []⟩ 7 "u").1
      = .ok 201 ⟨"a.txt", 3, 7, "pending"⟩ ∧
    hasObject (handleUploadDocument ⟨false, false, false⟩ ⟨⟨[⟨"idx", [], []⟩]⟩, []⟩
        "idx" ⟨"a.txt", 3, "", .blob []⟩ 7 "u").2.minio "idx" "a.txt" = true ∧
    ((⟨false, false, false⟩ : UploadFaults).storeStatus = true →
      (handleUploadDocument ⟨false, false, false⟩ ⟨⟨[⟨"idx", [], []⟩]⟩, []⟩ "idx"
          ⟨"a.txt", 3, "", .blob []⟩ 7 "u").2.db = (⟨⟨[⟨"idx", [], []⟩]⟩, []⟩ : World).db) ∧
    ((⟨false, false, false⟩ : UploadFaults).storeStatus = false →
      (⟨"u", "idx", "a.txt", "pending", ""⟩ : DocumentStatus)
        ∈ (handleUploadDocument ⟨false, false, false⟩ ⟨⟨[⟨"idx", [], []⟩]⟩, []⟩ "idx"
            ⟨"a.txt", 3, "", .blob []⟩ 7 "u").2.db) :=
  uploadDocument_success ⟨false, false, false⟩ ⟨⟨[⟨"idx", [], []⟩]⟩, []⟩ "idx"
    ⟨"a.txt", 3, "", .blob []⟩ 7 "u" rfl rfl (by decide) (by decide) rfl


theorem listDocs_fold_spec (sts : List DocumentStatus) (objs : List StoredObject)
    (init : List RAGDocument) :
    objs.foldl (fun documents obj =>
      if obj.key == metadataFile then documents
      else documents ++ [⟨obj.key, obj.size, obj.lastModified,
        (statusMapLookup sts obj.key).getD ""⟩]) init
    = init ++ (objs.filterMap fun obj =>
        if obj.key == metadataFile then none
        else some ⟨obj.key, obj.size, obj.lastModified,
          (statusMapLookup sts obj.key).getD ""⟩) := by
  refine foldl_opt_append _ _ (fun acc a => ?_) objs init
  by_cases h : (a.key == metadataFile) = true <;> simp [h]

theorem listDocs_filterMap_mem (sts : List DocumentStatus) (objs : List StoredObject) :
    (∀ obj ∈ objs, obj.key ≠ metadataFile →
      (⟨obj.key, obj.size, obj.lastModified, (statusMapLookup sts obj.key).getD ""⟩
        : RAGDocument) ∈ objs.filterMap fun o =>
          if o.key == metadataFile then none
          else some (⟨o.key, o.size, o.lastModified,
            (statusMapLookup sts o.key).getD ""⟩ : RAGDocument)) ∧
    (∀ d ∈ (objs.filterMap fun o =>
          if o.key == metadataFile then none
          else some (⟨o.key, o.size, o.lastModified,
            (statusMapLookup sts o.key).getD ""⟩ : RAGDocument)),
      d.name ≠ metadataFile ∧ ∃ obj, obj ∈ objs ∧
        d = ⟨obj.key, obj.size, obj.lastModified,
          (statusMapLookup sts obj.key).getD ""⟩) := by
  constructor
  · intro obj hobj hne
    rw [List.mem_filterMap]
    refine ⟨obj, hobj, ?_⟩
    rw [if_neg]
    intro hc
    exact hne (by simpa using hc)
  · intro d hd
    rw [List.mem_filterMap] at hd
    obtain ⟨obj, hobj, hval⟩ := hd
    by_cases hk : (obj.key == metadataFile) = true
    · rw [if_pos hk] at hval
      cases hval
    · rw [if_neg hk] at hval
      have hd2 := Option.some.inj hval
      refine ⟨?_, obj, hobj, hd2.symm⟩
      rw [← hd2]
      intro hc
      exact hk (by simpa using hc)

/-- C9: for an existing index (fault-free existence check and object listing),
the document listing answers OK and holds exactly the bucket's objects other
than the reserved metadata object, each carrying the status of its row looked
up by filename — the empty string when no row matches, and the empty string
for every document when the status-store listing faults, the request still
succeeding. -/
theorem listDocuments_join (f : ListDocsFaults) (w : World) (indexName : String)
    (b : Bucket)
    (hex : f.existsCheck = false) (hlo : f.listObjects = false)
    (hb : findBucket w.minio indexName = some b) :
    ∃ documents, handleListDocuments f w indexName = .ok 200 documents ∧
      (∀ obj ∈ b.objects, obj.key ≠ metadataFile →
        (⟨obj.key, obj.size, obj.lastModified,
          (statusMapLookup (if f.listStatuses then []
              else w.db.filter fun r => r.indexName == indexName) obj.key).getD ""⟩
          : RAGDocument) ∈ documents) ∧
      (∀ d ∈ documents, d.name ≠ metadataFile ∧
        ∃ obj, obj ∈ b.objects ∧ d = ⟨obj.key, obj.size, obj.lastModified,
          (statusMapLookup (if f.listStatuses then []
              else w.db.filter fun r => r.indexName == indexName) obj.key).getD ""⟩) := by
  obtain ⟨fex, flo, fls⟩ := f
  cases hex
  cases hlo
  have hbk : hasBucket w.minio indexName = true := hasBucket_of_findBucket _ _ _ hb
  cases fls
  · have hres : handleListDocuments ⟨false, false, false⟩ w indexName
        = .ok 200 (b.objects.filterMap fun o =>
            if o.key == metadataFile then none
            else some ⟨o.key, o.size, o.lastModified,
              (statusMapLookup (w.db.filter fun r => r.indexName == indexName)
                o.key).getD ""⟩) := by
      unfold handleListDocuments minioBucketExists minioListObjectsInfo
        dbListDocumentStatusesForIndex
      rw [hbk, hb]
      simp only [Bool.false_eq_true, if_false]
      rw [listDocs_fold_spec (w.db.filter fun r => r.indexName == indexName)
        b.objects []]
      rfl
    refine ⟨_, hres, ?_, ?_⟩
    · exact fun obj hobj hne =>
        (listDocs_filterMap_mem (w.db.filter fun r => r.indexName == indexName)
          b.objects).1 obj hobj hne
    · exact fun d hd =>
        (listDocs_filterMap_mem (w.db.filter fun r => r.indexName == indexName)
          b.objects).2 d hd
  · have hres : handleListDocuments ⟨false, false, true⟩ w indexName
        = .ok 200 (b.objects.filterMap fun o =>
            if o.key == metadataFile then none
            else some ⟨o.key, o.size, o.lastModified,
              (statusMapLookup [] o.key).getD ""⟩) := by
      unfold handleListDocuments minioBucketExists minioListObjectsInfo
        dbListDocumentStatusesForIndex
      rw [hbk, hb]
      simp only [Bool.false_eq_true, if_false, if_true]
      rw [listDocs_fold_spec [] b.objects []]
      rfl
    refine ⟨_, hres, ?_, ?_⟩
    · exact fun obj hobj hne => (listDocs_filterMap_mem [] b.objects).1 obj hobj hne
    · exact fun d hd => (listDocs_filterMap_mem [] b.objects).2 d hd

/-- C9 witness: a bucket holding the metadata object and one document whose
status row says completed. -/
theorem listDocuments_join_witness :
    ∃ documents, handleListDocuments ⟨false, false, false⟩
        ⟨⟨[⟨"idx", [],
            [⟨".metadata.json", 0, "application/json", 5, .metadataJson ⟨"idx", "d", 5⟩⟩,
             ⟨"a.txt", 3, "", 7, .blob []⟩]⟩]⟩,
          [⟨"u", "idx", "a.txt", "completed", ""⟩]⟩ "idx" = .ok 200 documents ∧
      (∀ obj ∈ [⟨".metadata.json", 0, "application/json", 5,
            .metadataJson ⟨"idx", "d", 5⟩⟩,
          (⟨"a.txt", 3, "", 7, .blob []⟩ : StoredObject)], obj.key ≠ metadataFile →
        (⟨obj.key, obj.size, obj.lastModified,
          (statusMapLookup (if (⟨false, false, false⟩ : ListDocsFaults).listStatuses
              then []
              else [(⟨"u", "idx", "a.txt", "completed", ""⟩ : DocumentStatus)].filter
                fun r => r.indexName == "idx") obj.key).getD ""⟩
          : RAGDocument) ∈ documents) ∧
      (∀ d ∈ documents, d.name ≠ metadataFile ∧
        ∃ obj, obj ∈ [⟨".metadata.json", 0, "application/json", 5,
            .metadataJson ⟨"idx", "d", 5⟩⟩,
          (⟨"a.txt", 3, "", 7, .blob []⟩ : StoredObject)] ∧
          d = ⟨obj.key, obj.size, obj.lastModified,
            (statusMapLookup (if (⟨false, false, false⟩ : ListDocsFaults).listStatuses
                then []
                else [(⟨"u", "idx", "a.txt", "completed", ""⟩ : DocumentStatus)].filter
                  fun r => r.indexName == "idx") obj.key).getD ""⟩) :=
  listDocuments_join ⟨false, false, false⟩
    ⟨⟨[⟨"idx", [],
        [⟨".metadata.json", 0, "application/json", 5, .metadataJson ⟨"idx", "d", 5⟩⟩,
         ⟨"a.txt", 3, "", 7, .blob []⟩]⟩]⟩,
      [⟨"u", "idx", "a.txt", "completed", ""⟩]⟩ "idx"
    ⟨"idx", [],
      [⟨".metadata.json", 0, "application/json", 5, .metadataJson ⟨"idx", "d", 5⟩⟩,
       ⟨"a.txt", 3, "", 7, .blob []⟩]⟩ rfl rfl rfl


theorem hasBucket_of_getIndexMetadata (s : MinioState) (n : String) (idx : RAGIndex)
    (h : getIndexMetadata s false n = .ok idx) : hasBucket s n = true := by
  unfold getIndexMetadata minioGetObject at h
  simp only [Bool.false_eq_true, if_false] at h
  cases hfb : findBucket s n with
  | none =>
    rw [hfb] at h
    simp at h
  | some b => exact hasBucket_of_findBucket s n b hfb

theorem getIndexMetadata_after_putMetadata (s : MinioState) (n : String)
    (idx : RAGIndex) (now : Nat) (hbk : hasBucket s n = true) :
    getIndexMetadata ⟨s.buckets.map fun b =>
        if b.name == n then
          { b with objects := (b.objects.filter fun o => !(o.key == metadataFile))
              ++ [⟨metadataFile, 0, "application/json", now, .metadataJson idx⟩] }
        else b⟩ false n = .ok idx := by
  unfold getIndexMetadata minioGetObject
  simp only [Bool.false_eq_true, if_false]
  rw [findBucket_map_update s n n
    (fun b => { b with objects := (b.objects.filter fun o => !(o.key == metadataFile))
        ++ [⟨metadataFile, 0, "application/json", now, .metadataJson idx⟩] })
    (fun b => rfl)]
  obtain ⟨b, hfb⟩ := findBucket_isSome s n hbk
  rw [hfb]
  simp only [Option.map_some']
  rw [if_pos (findBucket_name s n b hfb)]
  dsimp only
  rw [find?_filter_out_append b.objects (fun o => o.key == metadataFile) _ (by simp)]
  rfl

/-- C10: updating an index is a read-modify-write that changes only the
description: on the fault-free path the response and the rewritten metadata
object both carry the name and creation time read from the existing metadata
object, with only the description replaced by the request body. -/
theorem updateIndex_preserves_name_createdAt (f : UpdateIndexFaults) (s : MinioState)
    (indexName : String) (req : UpdateRAGIndexRequest) (now : Nat) (m : RAGIndex)
    (hget : f.getMetadata = false)
    (hput : f.putMetadata = false)
    (hm : getIndexMetadata s false indexName = .ok m) :
    (handleUpdateRAGIndex f s indexName req now).1
        = .ok 200 ⟨m.name, req.description, m.createdAt⟩ ∧
    getIndexMetadata (handleUpdateRAGIndex f s indexName req now).2 false indexName
        = .ok ⟨m.name, req.description, m.createdAt⟩ := by
  obtain ⟨fg, fp⟩ := f
  cases hget
  cases hput
  have hbk := hasBucket_of_getIndexMetadata s indexName m hm
  unfold handleUpdateRAGIndex putIndexMetadata
  rw [hm]
  dsimp only
  rw [putObject_ok s indexName metadataFile
    (.metadataJson { m with description := req.description }) 0 "application/json"
    now hbk]
  exact ⟨rfl, getIndexMetadata_after_putMetadata s indexName
    ⟨m.name, req.description, m.createdAt⟩ now hbk⟩

/-- C10 witness: the theorem applied to a store holding one index whose
metadata object carries an old description. -/
theorem updateIndex_preserves_witness :
    (handleUpdateRAGIndex ⟨false, false⟩
        ⟨[⟨"idx", [], [⟨".metadata.json", 0, "application/json", 3,
          .metadataJson ⟨"idx", "old", 3⟩⟩]⟩]⟩ "idx" ⟨"new"⟩ 9).1
      = .ok 200 ⟨"idx", "new", 3⟩ ∧
    getIndexMetadata (handleUpdateRAGIndex ⟨false, false⟩
        ⟨[⟨"idx", [], [⟨".metadata.json", 0, "application/json", 3,
          .metadataJson ⟨"idx", "old", 3⟩⟩]⟩]⟩ "idx" ⟨"new"⟩ 9).2 false "idx"
      = .ok ⟨"idx", "new", 3⟩ :=
  updateIndex_preserves_name_createdAt ⟨false, false⟩
    ⟨[⟨"idx", [], [⟨".metadata.json", 0, "application/json", 3,
      .metadataJson ⟨"idx", "old", 3⟩⟩]⟩]⟩ "idx" ⟨"new"⟩ 9 ⟨"idx", "old", 3⟩
    rfl rfl rfl

end KagentRag
